import Mathlib

/-!
Shallow embedding of `src/exp_backoff_retry.h` (class `expbr::Exponential_backoff_retry`)
and proofs about the claims of its specification.

The class holds an immutable policy (`_maxRetries : unsigned int`,
`_baseDelay : std::chrono::milliseconds`, `_backoffFactor : double`) and exposes
`operator()(t, func, args...)`, which spawns a thread running a do-while retry loop:

  do {
    result = func(args...);
    if (result != t) { sleep_for(getDelay(retryCount)); ++retryCount; }
    else             { promiseRes.set_value(result); return; }
  } while (retryCount < _maxRetries);
  promiseRes.set_value(result);

and then immediately calls `work_thread.join()` before returning the future.

Modelling choices:
* The callable is modelled as `f : Nat → α`, where `f i` is the result of the
  (i+1)-th invocation (the source passes the same captured arguments every time,
  but the callable is an opaque black box whose successive results may differ,
  which is exactly what an index-dependent result function captures).
* The body of the spawned thread is modelled as the list of its observable
  events: each invocation (with the value of the local `retryCount` at that
  point, which 0-indexes the invocation, and the obtained result), each
  `sleep_for(getDelay(retryCount))` (recording the `retryCount` passed to
  `getDelay`), and each `promiseRes.set_value(result)`.
* `milliseconds` is modelled by its integer tick count; `double` arithmetic in
  `getDelay` is modelled over `ℚ` (exact for the factors the spec discusses);
  `static_cast<long long>` truncates toward zero.
* The do-while loop is encoded by structural recursion on `fuel`, the number of
  times the guard `retryCount < _maxRetries` can still evaluate to true, i.e.
  `_maxRetries - 1 - retryCount`; the thread body starts with `retryCount = 0`
  and fuel `_maxRetries - 1`.  Each equation of `retryLoop` is the loop body
  verbatim: invoke, then either (on a match) set the promise and return, or
  sleep and increment, after which the guard either re-enters the loop
  (`fuel + 1`, i.e. `retryCount + 1 < _maxRetries`) or falls through to the
  trailing `set_value` (`fuel = 0`, i.e. `retryCount + 1 ≥ _maxRetries`).
-/

namespace Expbr

/-- Observable actions of the spawned work thread.  `invoke rc r`: the callable is
invoked while the local `retryCount` equals `rc` (so it is the (rc+1)-th
invocation) and returns `r`; `sleep rc`: `std::this_thread::sleep_for(getDelay(rc))`;
`setValue r`: `promiseRes.set_value(r)`. -/
inductive Event (α : Type) where
  | invoke (retryCount : Nat) (result : α)
  | sleep (retryCount : Nat)
  | setValue (result : α)
deriving DecidableEq

/-- The executor class `expbr::Exponential_backoff_retry`.  Field `maxRetries`
models `_maxRetries : unsigned int`; `baseDelay` models `_baseDelay`'s tick
count (`milliseconds::count()`, a signed integer); `backoffFactor` models
`_backoffFactor : double` as an exact rational. -/
structure Exponential_backoff_retry where
  maxRetries : Nat
  baseDelay : Int
  backoffFactor : ℚ

/-- `static_cast<long long>` applied to a floating-point value: truncation
toward zero. -/
def truncTowardZero (q : ℚ) : Int := if 0 ≤ q then ⌊q⌋ else ⌈q⌉

/-- `getDelay(retryCount)` from the source:
`milliseconds(static_cast<long long>(_baseDelay.count() * pow(_backoffFactor, retryCount)))`,
returned as the tick count of the produced `milliseconds`. -/
def getDelay (E : Exponential_backoff_retry) (retryCount : Nat) : Int :=
  truncTowardZero ((E.baseDelay : ℚ) * E.backoffFactor ^ retryCount)

/-- The do-while retry loop of the thread body (see the file comment for the
fuel encoding of the guard `retryCount < _maxRetries`). -/
def retryLoop {α : Type} [DecidableEq α] (t : α) (f : Nat → α) (retryCount : Nat) :
    Nat → List (Event α)
  | 0 =>
    let result := f retryCount
    if result = t then
      [Event.invoke retryCount result, Event.setValue result]
    else
      [Event.invoke retryCount result, Event.sleep retryCount, Event.setValue result]
  | fuel + 1 =>
    let result := f retryCount
    if result = t then
      [Event.invoke retryCount result, Event.setValue result]
    else
      Event.invoke retryCount result :: Event.sleep retryCount ::
        retryLoop t f (retryCount + 1) fuel

/-- The body of the `std::thread` spawned by `operator()`: local
`retryCount = 0`, and the guard can still succeed `_maxRetries - 1` times
(after the first failed iteration `retryCount` is already 1). -/
def workThread {α : Type} [DecidableEq α] (E : Exponential_backoff_retry) (t : α)
    (f : Nat → α) : List (Event α) :=
  retryLoop t f 0 (E.maxRetries - 1)

/-- Caller-thread view of one `operator()` (execute) call: construct the
promise/future, spawn `work_thread`, `join` it, return `futureRes`.  Because
`work_thread.join()` is executed immediately after the spawn and blocks until
the thread body finishes, the caller-observable order is exactly this
sequence. -/
inductive CallerEvent (α : Type) where
  | spawnThread
  | inThread (e : Event α)
  | joinThread
  | returnFuture
deriving DecidableEq

/-- One call of `operator()` (the spec's `execute`) as the sequence of
caller-observable events. -/
def callEvents {α : Type} [DecidableEq α] (E : Exponential_backoff_retry) (t : α)
    (f : Nat → α) : List (CallerEvent α) :=
  CallerEvent.spawnThread :: (workThread E t f).map CallerEvent.inThread
    ++ [CallerEvent.joinThread, CallerEvent.returnFuture]

/-- `operator()` together with the executor's state after the call.  The source
never assigns to `_maxRetries`, `_baseDelay` or `_backoffFactor` (the thread
lambda captures `this` and only reads them, in the loop guard and in
`getDelay`), so the post-state is the unchanged record. -/
def executeState {α : Type} [DecidableEq α] (E : Exponential_backoff_retry) (t : α)
    (f : Nat → α) : Exponential_backoff_retry × List (CallerEvent α) :=
  (E, callEvents E t f)

/-- Results of the `invoke` events of a trace, in order. -/
def invokeResults {α : Type} (es : List (Event α)) : List α :=
  es.filterMap fun e =>
    match e with
    | Event.invoke _ r => some r
    | _ => none

/-- Number of invocations of the callable in a trace. -/
def invokeCount {α : Type} (es : List (Event α)) : Nat :=
  (invokeResults es).length

/-- The `retryCount` arguments of the `sleep` events of a trace, in order. -/
def sleepCounts {α : Type} (es : List (Event α)) : List Nat :=
  es.filterMap fun e =>
    match e with
    | Event.sleep rc => some rc
    | _ => none

/-- Durations (in milliseconds) of the backoff sleeps of a trace, in order:
each `sleep rc` lasts `getDelay rc`. -/
def sleepDurations {α : Type} (E : Exponential_backoff_retry) (es : List (Event α)) :
    List Int :=
  (sleepCounts es).map (getDelay E)

/-- Values written to the promise (`set_value`) in a trace, in order. -/
def setValues {α : Type} (es : List (Event α)) : List α :=
  es.filterMap fun e =>
    match e with
    | Event.setValue r => some r
    | _ => none

/-- The value the caller obtains from the returned future: the first (in fact,
as proved below, the only) value written to the promise by the work thread. -/
def futureValue {α : Type} [DecidableEq α] (E : Exponential_backoff_retry) (t : α)
    (f : Nat → α) : Option α :=
  (setValues (workThread E t f)).head?

/-- Whether a trace contains an `invoke` event. -/
def hasInvoke {α : Type} (es : List (Event α)) : Bool :=
  es.any fun e =>
    match e with
    | Event.invoke _ _ => true
    | _ => false

/-- `true` iff every `sleep` of the trace is followed, later in the trace, by
another invocation — i.e. every backoff sleep lies between two invocations. -/
def sleepsOnlyBetweenInvocations {α : Type} : List (Event α) → Bool
  | [] => true
  | Event.sleep _ :: rest => hasInvoke rest && sleepsOnlyBetweenInvocations rest
  | _ :: rest => sleepsOnlyBetweenInvocations rest

/-- The trace segment produced by `n` consecutive failed iterations starting at
`retryCount = rc`: invoke, sleep, invoke, sleep, … -/
def failSeg {α : Type} (f : Nat → α) (rc : Nat) : Nat → List (Event α)
  | 0 => []
  | n + 1 => Event.invoke rc (f rc) :: Event.sleep rc :: failSeg f (rc + 1) n

/-! ### Computation rules for the trace projections -/

theorem invokeResults_nil : invokeResults ([] : List (Event α)) = [] := rfl

theorem invokeResults_cons_invoke (rc : Nat) (r : α) (es : List (Event α)) :
    invokeResults (Event.invoke rc r :: es) = r :: invokeResults es := rfl

theorem invokeResults_cons_sleep (rc : Nat) (es : List (Event α)) :
    invokeResults (Event.sleep rc :: es) = invokeResults es := rfl

theorem invokeResults_cons_setValue (r : α) (es : List (Event α)) :
    invokeResults (Event.setValue r :: es) = invokeResults es := rfl

theorem invokeResults_append (es es' : List (Event α)) :
    invokeResults (es ++ es') = invokeResults es ++ invokeResults es' :=
  List.filterMap_append es es' _

theorem sleepCounts_nil : sleepCounts ([] : List (Event α)) = [] := rfl

theorem sleepCounts_cons_invoke (rc : Nat) (r : α) (es : List (Event α)) :
    sleepCounts (Event.invoke rc r :: es) = sleepCounts es := rfl

theorem sleepCounts_cons_sleep (rc : Nat) (es : List (Event α)) :
    sleepCounts (Event.sleep rc :: es) = rc :: sleepCounts es := rfl

theorem sleepCounts_cons_setValue (r : α) (es : List (Event α)) :
    sleepCounts (Event.setValue r :: es) = sleepCounts es := rfl

theorem sleepCounts_append (es es' : List (Event α)) :
    sleepCounts (es ++ es') = sleepCounts es ++ sleepCounts es' :=
  List.filterMap_append es es' _

theorem setValues_nil : setValues ([] : List (Event α)) = [] := rfl

theorem setValues_cons_invoke (rc : Nat) (r : α) (es : List (Event α)) :
    setValues (Event.invoke rc r :: es) = setValues es := rfl

theorem setValues_cons_sleep (rc : Nat) (es : List (Event α)) :
    setValues (Event.sleep rc :: es) = setValues es := rfl

theorem setValues_cons_setValue (r : α) (es : List (Event α)) :
    setValues (Event.setValue r :: es) = r :: setValues es := rfl

theorem setValues_append (es es' : List (Event α)) :
    setValues (es ++ es') = setValues es ++ setValues es' :=
  List.filterMap_append es es' _

/-! ### The shape of `failSeg` -/

theorem invokeResults_failSeg (f : Nat → α) (n : Nat) :
    ∀ rc, invokeResults (failSeg f rc n) = (List.range' rc n).map f := by
  induction n with
  | zero => intro rc; rfl
  | succ n ih =>
      intro rc
      simp [failSeg, invokeResults_cons_invoke, invokeResults_cons_sleep, ih,
        List.range'_succ]

theorem sleepCounts_failSeg (f : Nat → α) (n : Nat) :
    ∀ rc, sleepCounts (failSeg f rc n) = List.range' rc n := by
  induction n with
  | zero => intro rc; rfl
  | succ n ih =>
      intro rc
      simp [failSeg, sleepCounts_cons_invoke, sleepCounts_cons_sleep, ih,
        List.range'_succ]

theorem setValues_failSeg (f : Nat → α) (n : Nat) :
    ∀ rc, setValues (failSeg f rc n) = [] := by
  induction n with
  | zero => intro rc; rfl
  | succ n ih =>
      intro rc
      simp [failSeg, setValues_cons_invoke, setValues_cons_sleep, ih]

/-! ### Characterisations of the retry loop -/

/-- When no invocation from `retryCount = rc` on matches the target, the loop
performs `fuel + 1` failed iterations — each an invocation followed by a sleep,
the sleep of the final iteration included — and then falls through the guard to
the trailing `set_value` with the last result. -/
theorem retryLoop_eq_of_never [DecidableEq α] (t : α) (f : Nat → α) (fuel : Nat) :
    ∀ rc, (∀ i, f i ≠ t) →
      retryLoop t f rc fuel
        = failSeg f rc (fuel + 1) ++ [Event.setValue (f (rc + fuel))] := by
  induction fuel with
  | zero =>
      intro rc h
      simp [retryLoop, if_neg (h rc), failSeg]
  | succ fuel ih =>
      intro rc h
      have hrc : f rc ≠ t := h rc
      have harith : rc + (fuel + 1) = (rc + 1) + fuel := by omega
      simp only [retryLoop, if_neg hrc, ih (rc + 1) h, failSeg, harith]
      rfl

/-- When the first match from `retryCount = rc` on happens at invocation index
`j` still reachable within the guard budget, the loop performs `j - rc` failed
iterations and then the matching invocation, sets the promise and returns with
no further sleep. -/
theorem retryLoop_eq_of_match [DecidableEq α] (t : α) (f : Nat → α) (j : Nat)
    (hm : f j = t) (fuel : Nat) :
    ∀ rc, rc ≤ j → j ≤ rc + fuel → (∀ i, rc ≤ i → i < j → f i ≠ t) →
      retryLoop t f rc fuel
        = failSeg f rc (j - rc) ++ [Event.invoke j t, Event.setValue t] := by
  induction fuel with
  | zero =>
      intro rc h1 h2 _
      have hj : j = rc := by omega
      subst hj
      simp [retryLoop, if_pos hm, hm, failSeg]
  | succ fuel ih =>
      intro rc h1 h2 hb
      rcases Nat.eq_or_lt_of_le h1 with heq | hlt
      · subst heq
        simp [retryLoop, if_pos hm, hm, failSeg]
      · have hrc : f rc ≠ t := hb rc (Nat.le_refl rc) hlt
        have hsub : j - rc = (j - (rc + 1)) + 1 := by omega
        have hrest := ih (rc + 1) hlt (by omega)
          (fun i hi1 hi2 => hb i (by omega) hi2)
        simp only [retryLoop, if_neg hrc, hrest, hsub, failSeg]
        rfl

/-- On every run the loop performs at least one invocation. -/
theorem invokeCount_retryLoop_pos [DecidableEq α] (t : α) (f : Nat → α) (fuel : Nat) :
    ∀ rc, 1 ≤ invokeCount (retryLoop t f rc fuel) := by
  induction fuel with
  | zero =>
      intro rc
      by_cases h : f rc = t <;>
        simp [retryLoop, h, invokeCount, invokeResults_nil, invokeResults_cons_invoke,
          invokeResults_cons_sleep, invokeResults_cons_setValue]
  | succ fuel ih =>
      intro rc
      by_cases h : f rc = t <;>
        simp [retryLoop, h, invokeCount, invokeResults_nil, invokeResults_cons_invoke,
          invokeResults_cons_sleep, invokeResults_cons_setValue]

/-- On every run the loop performs at most `fuel + 1` invocations. -/
theorem invokeCount_retryLoop_le [DecidableEq α] (t : α) (f : Nat → α) (fuel : Nat) :
    ∀ rc, invokeCount (retryLoop t f rc fuel) ≤ fuel + 1 := by
  induction fuel with
  | zero =>
      intro rc
      by_cases h : f rc = t <;>
        simp [retryLoop, h, invokeCount, invokeResults_nil, invokeResults_cons_invoke,
          invokeResults_cons_sleep, invokeResults_cons_setValue]
  | succ fuel ih =>
      intro rc
      by_cases h : f rc = t
      · simp [retryLoop, h, invokeCount, invokeResults_nil, invokeResults_cons_invoke,
          invokeResults_cons_setValue]
      · have := ih (rc + 1)
        simp only [retryLoop, if_neg h, invokeCount, invokeResults_cons_invoke,
          invokeResults_cons_sleep, List.length_cons] at this ⊢
        omega

/-- On every run the loop writes the promise exactly once, and the written value
is the result of the last invocation performed. -/
theorem setValues_retryLoop [DecidableEq α] (t : α) (f : Nat → α) (fuel : Nat) :
    ∀ rc, ∃ r, setValues (retryLoop t f rc fuel) = [r] ∧
      (invokeResults (retryLoop t f rc fuel)).getLast? = some r := by
  induction fuel with
  | zero =>
      intro rc
      by_cases h : f rc = t <;>
        exact ⟨f rc, by
          simp [retryLoop, h, setValues_nil, setValues_cons_invoke, setValues_cons_sleep,
            setValues_cons_setValue, invokeResults_nil, invokeResults_cons_invoke,
            invokeResults_cons_sleep, invokeResults_cons_setValue]⟩
  | succ fuel ih =>
      intro rc
      by_cases h : f rc = t
      · exact ⟨f rc, by
          simp [retryLoop, h, setValues_nil, setValues_cons_invoke, setValues_cons_setValue,
            invokeResults_nil, invokeResults_cons_invoke, invokeResults_cons_setValue]⟩
      · obtain ⟨r, hset, hlast⟩ := ih (rc + 1)
        refine ⟨r, ?_, ?_⟩
        · simp [retryLoop, if_neg h, setValues_cons_invoke, setValues_cons_sleep,
            hset]
        · obtain ⟨b, l, hbl⟩ : ∃ b l, invokeResults (retryLoop t f (rc + 1) fuel)
              = b :: l := by
            cases hil : invokeResults (retryLoop t f (rc + 1) fuel) with
            | nil => rw [hil] at hlast; simp at hlast
            | cons b l => exact ⟨b, l, rfl⟩
          simp only [retryLoop, if_neg h, invokeResults_cons_invoke,
            invokeResults_cons_sleep, hbl]
          rw [List.getLast?_cons_cons]
          rw [hbl] at hlast
          exact hlast

/-- The `retryCount`s recorded by the sleeps of a run form a contiguous initial
segment `rc, rc+1, …`: the counter starts at `rc` and goes up by exactly one
per failed iteration. -/
theorem sleepCounts_retryLoop [DecidableEq α] (t : α) (f : Nat → α) (fuel : Nat) :
    ∀ rc, ∃ k, sleepCounts (retryLoop t f rc fuel) = List.range' rc k := by
  induction fuel with
  | zero =>
      intro rc
      by_cases h : f rc = t
      · exact ⟨0, by simp [retryLoop, h, sleepCounts_nil, sleepCounts_cons_invoke,
          sleepCounts_cons_setValue]⟩
      · exact ⟨1, by simp [retryLoop, h, sleepCounts_nil, sleepCounts_cons_invoke,
          sleepCounts_cons_sleep, sleepCounts_cons_setValue, List.range'_succ]⟩
  | succ fuel ih =>
      intro rc
      by_cases h : f rc = t
      · exact ⟨0, by simp [retryLoop, h, sleepCounts_nil, sleepCounts_cons_invoke,
          sleepCounts_cons_setValue]⟩
      · obtain ⟨k, hk⟩ := ih (rc + 1)
        exact ⟨k + 1, by simp [retryLoop, if_neg h, sleepCounts_cons_invoke,
          sleepCounts_cons_sleep, hk, List.range'_succ]⟩

/-! ### Placement of the sleeps -/

theorem hasInvoke_append (es es' : List (Event α)) :
    hasInvoke (es ++ es') = (hasInvoke es || hasInvoke es') :=
  List.any_append

/-- A run of failed iterations ending in a matching invocation has every sleep
strictly between two invocations. -/
theorem sleepsOnlyBetween_invokeTail (f : Nat → α) (n j : Nat) (r : α) :
    ∀ rc, sleepsOnlyBetweenInvocations
      (failSeg f rc n ++ [Event.invoke j r, Event.setValue r]) = true := by
  induction n with
  | zero => intro rc; rfl
  | succ n ih =>
      intro rc
      simp [failSeg, sleepsOnlyBetweenInvocations, hasInvoke_append, hasInvoke, ih]

/-- A nonempty run of failed iterations ending in the trailing `set_value` has a
sleep that is not followed by any further invocation (the sleep of the very
last iteration). -/
theorem sleepsOnlyBetween_setValueTail (f : Nat → α) (n : Nat) (r : α) :
    ∀ rc, sleepsOnlyBetweenInvocations
      (failSeg f rc (n + 1) ++ [Event.setValue r]) = false := by
  induction n with
  | zero =>
      intro rc
      rfl
  | succ n ih =>
      intro rc
      have hstep : sleepsOnlyBetweenInvocations
          (failSeg f rc (n + 1 + 1) ++ [Event.setValue r])
          = (hasInvoke (failSeg f (rc + 1) (n + 1) ++ [Event.setValue r]) &&
             sleepsOnlyBetweenInvocations
               (failSeg f (rc + 1) (n + 1) ++ [Event.setValue r])) := rfl
      rw [hstep, ih (rc + 1), Bool.and_false]

/-! ### Arithmetic of `getDelay` -/

theorem truncTowardZero_of_nonneg {q : ℚ} (h : 0 ≤ q) : truncTowardZero q = ⌊q⌋ :=
  if_pos h

/-- For the documented preconditions (`baseDelay ≥ 0`, `backoffFactor ≥ 0`) the
truncation toward zero performed by `static_cast<long long>` agrees with the
floor of the spec's delay formula. -/
theorem getDelay_eq_floor (E : Exponential_backoff_retry) (hb : 0 ≤ E.baseDelay)
    (hf : 0 ≤ E.backoffFactor) (n : Nat) :
    getDelay E n = ⌊(E.baseDelay : ℚ) * E.backoffFactor ^ n⌋ :=
  truncTowardZero_of_nonneg
    (mul_nonneg (by exact_mod_cast hb) (pow_nonneg hf n))

/-! ### The claims -/

/-- Claim C1, amended.  In every `operator()` call the callable is invoked at
least once and at most `maxRetries + 1` times; but a callable that never
matches the target is invoked exactly `max 1 maxRetries` times — not
`maxRetries + 1` times as the original claim states — because the guard
`retryCount < _maxRetries` is tested only after the counter has already been
incremented for the failed attempt. -/
theorem C1_attempt_count {α : Type} [DecidableEq α] (E : Exponential_backoff_retry)
    (t : α) (f : Nat → α) :
    (1 ≤ invokeCount (workThread E t f) ∧
      invokeCount (workThread E t f) ≤ E.maxRetries + 1) ∧
    ((∀ i, f i ≠ t) → invokeCount (workThread E t f) = max 1 E.maxRetries) := by
  refine ⟨⟨invokeCount_retryLoop_pos t f _ 0, ?_⟩, ?_⟩
  · have := invokeCount_retryLoop_le t f (E.maxRetries - 1) 0
    unfold workThread
    omega
  · intro h
    unfold workThread
    rw [retryLoop_eq_of_never t f (E.maxRetries - 1) 0 h]
    simp only [invokeCount, invokeResults_append, invokeResults_failSeg,
      invokeResults_cons_setValue, invokeResults_nil, List.length_append,
      List.length_map, List.length_range', List.length_nil]
    omega

/-- Claim C1, witness: with `maxRetries = 3` a constantly non-matching callable
is invoked exactly `max 1 3 = 3` times. -/
theorem C1_attempt_count_witness :
    invokeCount (workThread ⟨3, 100, 2⟩ 5 (fun _ => (1 : Nat))) = max 1 3 :=
  (C1_attempt_count ⟨3, 100, 2⟩ 5 (fun _ => (1 : Nat))).2
    (fun i => by
      show (1 : Nat) ≠ 5
      decide)

/-- Claim C1, counterexample to the original statement: with `maxRetries = 1`
and a callable that never returns the target `5`, the callable is invoked once,
not `maxRetries + 1 = 2` times. -/
theorem C1_counterexample :
    (∀ i : Nat, (fun _ => (1 : Nat)) i ≠ 5) ∧
    invokeCount (workThread ⟨1, 100, 2⟩ 5 (fun _ => (1 : Nat))) = 1 ∧
    invokeCount (workThread ⟨1, 100, 2⟩ 5 (fun _ => (1 : Nat))) ≠ 1 + 1 :=
  ⟨fun i => by
    show (1 : Nat) ≠ 5
    decide, by decide, by decide⟩

/-- Claim C2 (code bug).  With `maxRetries = 1 > 0`, `baseDelay = 100ms > 0` and
a callable that never matches, the caller-observable event sequence of one
`operator()` call is: spawn the work thread, then (because of the immediate
`work_thread.join()`) the entire retry sequence — invocation, backoff sleep,
promise resolution — then the join returns and only then is the future handed
back.  The future is therefore returned strictly after the full retry sequence,
including its sleep, has completed, contrary to the claim (and to the source's
own comment "Start the function call asynchronously and return the future"). -/
theorem C2_join_blocks_caller :
    callEvents ⟨1, 100, 2⟩ 5 (fun _ => (1 : Nat)) =
      [CallerEvent.spawnThread, CallerEvent.inThread (Event.invoke 0 1),
       CallerEvent.inThread (Event.sleep 0), CallerEvent.inThread (Event.setValue 1),
       CallerEvent.joinThread, CallerEvent.returnFuture] := by decide

/-- Claim C3, amended.  On a success run (first match at invocation index `j`,
reachable within the guard budget) every backoff sleep lies strictly between
two consecutive invocations — in particular none follows the final, matching
invocation.  But on an exhaustion run every failed invocation, the last one
included, is followed by a sleep: the number of sleeps equals the number of
invocations and the trace's final sleep is followed by no further invocation,
contrary to the original claim's "no sleep follows the last invocation". -/
theorem C3_sleep_placement {α : Type} [DecidableEq α] (E : Exponential_backoff_retry)
    (t : α) (f : Nat → α) :
    (∀ j, j < max 1 E.maxRetries → f j = t → (∀ i, i < j → f i ≠ t) →
      sleepsOnlyBetweenInvocations (workThread E t f) = true) ∧
    ((∀ i, f i ≠ t) →
      sleepsOnlyBetweenInvocations (workThread E t f) = false ∧
      sleepCounts (workThread E t f) = List.range' 0 (invokeCount (workThread E t f))) := by
  constructor
  · intro j hj hm hb
    unfold workThread
    rw [retryLoop_eq_of_match t f j hm (E.maxRetries - 1) 0 (Nat.zero_le j)
      (by omega) (fun i _ h2 => hb i h2)]
    rw [Nat.sub_zero]
    exact sleepsOnlyBetween_invokeTail f j j t 0
  · intro h
    unfold workThread
    rw [retryLoop_eq_of_never t f (E.maxRetries - 1) 0 h]
    refine ⟨sleepsOnlyBetween_setValueTail f (E.maxRetries - 1) _ 0, ?_⟩
    simp [sleepCounts_append, sleepCounts_failSeg, sleepCounts_cons_setValue,
      sleepCounts_nil, invokeCount, invokeResults_append, invokeResults_failSeg,
      invokeResults_cons_setValue, invokeResults_nil]

/-- Claim C3, witness: `maxRetries = 2`, callable matching on the second
invocation — every sleep of the run lies between two invocations. -/
theorem C3_sleep_placement_witness :
    sleepsOnlyBetweenInvocations
      (workThread ⟨2, 100, 2⟩ 5 (fun i => if i = 0 then (1 : Nat) else 5)) = true :=
  (C3_sleep_placement ⟨2, 100, 2⟩ 5 (fun i => if i = 0 then (1 : Nat) else 5)).1
    1 (by decide) (by decide)
    (fun i hi => by
      have : i = 0 := by omega
      subst this
      decide)

/-- Claim C3, counterexample to the original statement: `maxRetries = 1`,
callable never matching — the exhaustion run is invoke, sleep, resolve: its
(only) backoff sleep follows the final invocation. -/
theorem C3_counterexample :
    (∀ i : Nat, (fun _ => (1 : Nat)) i ≠ 5) ∧
    workThread ⟨1, 100, 2⟩ 5 (fun _ => (1 : Nat)) =
      [Event.invoke 0 1, Event.sleep 0, Event.setValue 1] ∧
    sleepsOnlyBetweenInvocations (workThread ⟨1, 100, 2⟩ 5 (fun _ => (1 : Nat)))
      = false :=
  ⟨fun i => by
    show (1 : Nat) ≠ 5
    decide, by decide, by decide⟩

/-- Claim C4 (confirmed).  When no invocation matches the target, the value the
caller obtains from the future is a normally delivered value (`some`, the only
channel the code ever uses — there is no error channel), and it equals the
result of the last invocation actually performed (invocation index
`maxRetries - 1`, 0-based), not the first invocation's result.  ("Not the first
invocation's result" is read contrastively: the delivered value is the last
result; it coincides with the first only when the run performs a single
invocation or the callable repeats its value.) -/
theorem C4_exhaustion_value {α : Type} [DecidableEq α]
    (E : Exponential_backoff_retry) (t : α) (f : Nat → α) (h : ∀ i, f i ≠ t) :
    futureValue E t f = (invokeResults (workThread E t f)).getLast? ∧
    futureValue E t f = some (f (E.maxRetries - 1)) ∧
    (futureValue E t f).isSome = true := by
  obtain ⟨r, hr1, hr2⟩ := setValues_retryLoop t f (E.maxRetries - 1) 0
  have hlast : futureValue E t f = some (f (E.maxRetries - 1)) := by
    unfold futureValue workThread
    rw [retryLoop_eq_of_never t f (E.maxRetries - 1) 0 h]
    simp [setValues_append, setValues_failSeg, setValues_cons_setValue,
      setValues_nil]
  refine ⟨?_, hlast, by rw [hlast]; rfl⟩
  unfold futureValue workThread
  rw [hr1, hr2]
  rfl

/-- Claim C4, witness: `maxRetries = 3`, callable returning `10 * i + 1` on the
(i+1)-th invocation, target 5 never matched — the delivered value is `21`, the
result of the third (= last, `max 1 3`) invocation, not the first's `1`. -/
theorem C4_exhaustion_value_witness :
    futureValue ⟨3, 100, 2⟩ 5 (fun i => 10 * i + 1) = some 21 := by
  have := (C4_exhaustion_value ⟨3, 100, 2⟩ 5 (fun i => 10 * i + 1)
    (fun i => by
      show 10 * i + 1 ≠ 5
      omega)).2.1
  simpa using this

/-- Claim C5 (confirmed, with `double` modelled by exact rational arithmetic).
Under the documented policy preconditions `baseDelay ≥ 0` and
`backoffFactor ≥ 0`, `getDelay n` equals `⌊baseDelay * backoffFactor ^ n⌋`
milliseconds; `backoffFactor = 1` yields the constant delay `baseDelay`,
`backoffFactor ≤ 1` a non-increasing (decaying) delay, `backoffFactor ≥ 1` a
non-decreasing (growing) delay.  Moreover in every run the sleeps are executed
with `retryCount = 0, 1, 2, …` in order, so the (n+1)-th backoff wait — the one
interposed before invocation n+2 whenever that invocation occurs — lasts
exactly `getDelay n`. -/
theorem C5_delay_formula (α : Type) [DecidableEq α] (E : Exponential_backoff_retry)
    (hb : 0 ≤ E.baseDelay) (hf : 0 ≤ E.backoffFactor) :
    (∀ n : Nat, getDelay E n = ⌊(E.baseDelay : ℚ) * E.backoffFactor ^ n⌋) ∧
    (E.backoffFactor = 1 → ∀ n : Nat, getDelay E n = E.baseDelay) ∧
    (E.backoffFactor ≤ 1 → ∀ n : Nat, getDelay E (n + 1) ≤ getDelay E n) ∧
    (1 ≤ E.backoffFactor → ∀ n : Nat, getDelay E n ≤ getDelay E (n + 1)) ∧
    (∀ (t : α) (f : Nat → α), ∃ k,
      sleepDurations E (workThread E t f) = (List.range' 0 k).map (getDelay E)) := by
  refine ⟨getDelay_eq_floor E hb hf, ?_, ?_, ?_, ?_⟩
  · intro h1 n
    rw [getDelay_eq_floor E hb hf, h1]
    simp
  · intro h1 n
    rw [getDelay_eq_floor E hb hf, getDelay_eq_floor E hb hf]
    apply Int.floor_le_floor
    exact mul_le_mul_of_nonneg_left
      (pow_le_pow_of_le_one hf h1 (Nat.le_succ n)) (by exact_mod_cast hb)
  · intro h1 n
    rw [getDelay_eq_floor E hb hf, getDelay_eq_floor E hb hf]
    apply Int.floor_le_floor
    exact mul_le_mul_of_nonneg_left
      (pow_le_pow_right₀ h1 (Nat.le_succ n)) (by exact_mod_cast hb)
  · intro t f
    obtain ⟨k, hk⟩ := sleepCounts_retryLoop t f (E.maxRetries - 1) 0
    exact ⟨k, by simp [sleepDurations, workThread, hk]⟩

/-- Claim C5, witness: for `baseDelay = 100`, `backoffFactor = 2` the formula
holds at `n = 2`, and evaluates to 400 (the spec's example sequence
100, 200, 400). -/
theorem C5_delay_formula_witness :
    getDelay ⟨3, 100, 2⟩ 2 = ⌊(((⟨3, 100, 2⟩ : Exponential_backoff_retry).baseDelay : ℚ)
      * (⟨3, 100, 2⟩ : Exponential_backoff_retry).backoffFactor ^ 2)⌋ ∧
    getDelay ⟨3, 100, 2⟩ 2 = 400 :=
  ⟨(C5_delay_formula Nat ⟨3, 100, 2⟩ (by norm_num) (by norm_num)).1 2, by
    unfold getDelay truncTowardZero
    norm_num⟩

/-- Claim C6, amended.  If the callable's result matches the target for the
first time on the k-th invocation (1-indexed), that invocation is reached only
for `k ≤ max 1 maxRetries` — not for every `k ≤ maxRetries + 1` as originally
claimed — and then the callable is invoked exactly `k` times, no backoff sleep
follows the matching invocation (the trace ends invoke-then-resolve, its sleeps
being exactly the `k - 1` earlier ones), and the matching result is the value
delivered through the future.  Here `j = k - 1` is the 0-based index. -/
theorem C6_early_termination {α : Type} [DecidableEq α]
    (E : Exponential_backoff_retry) (t : α) (f : Nat → α) (j : Nat)
    (hrange : j < max 1 E.maxRetries) (hm : f j = t)
    (hb : ∀ i, i < j → f i ≠ t) :
    invokeCount (workThread E t f) = j + 1 ∧
    futureValue E t f = some t ∧
    workThread E t f = failSeg f 0 j ++ [Event.invoke j t, Event.setValue t] ∧
    sleepCounts (workThread E t f) = List.range' 0 j := by
  have hW : workThread E t f
      = failSeg f 0 (j - 0) ++ [Event.invoke j t, Event.setValue t] :=
    retryLoop_eq_of_match t f j hm (E.maxRetries - 1) 0 (Nat.zero_le j)
      (by omega) (fun i _ h2 => hb i h2)
  rw [Nat.sub_zero] at hW
  refine ⟨?_, ?_, hW, ?_⟩
  · rw [hW]
    simp [invokeCount, invokeResults_append, invokeResults_failSeg,
      invokeResults_cons_invoke, invokeResults_cons_setValue, invokeResults_nil]
  · unfold futureValue
    rw [hW]
    simp [setValues_append, setValues_failSeg, setValues_cons_invoke,
      setValues_cons_setValue, setValues_nil]
  · rw [hW]
    simp [sleepCounts_append, sleepCounts_failSeg, sleepCounts_cons_invoke,
      sleepCounts_cons_setValue, sleepCounts_nil]

/-- Claim C6, witness: `maxRetries = 3`, first match on the third invocation
(`j = 2 < max 1 3`): exactly 3 invocations and the matching value 5 is
delivered. -/
theorem C6_early_termination_witness :
    invokeCount (workThread ⟨3, 100, 2⟩ 5 (fun i => if i < 2 then (1 : Nat) else 5))
        = 2 + 1 ∧
    futureValue ⟨3, 100, 2⟩ 5 (fun i => if i < 2 then (1 : Nat) else 5) = some 5 := by
  have h := C6_early_termination ⟨3, 100, 2⟩ 5
    (fun i => if i < 2 then (1 : Nat) else 5) 2 (by decide) (by decide)
    (fun i hi => by simp [hi])
  exact ⟨h.1, h.2.1⟩

/-- Claim C6, counterexample to the original statement: `maxRetries = 1` and a
callable matching for the first time on invocation `k = 2 = maxRetries + 1`.
The original claim requires 2 invocations and delivery of the matching value 5;
the code performs a single invocation (the guard `retryCount < _maxRetries`
fails after the first retry is counted) and delivers the non-matching 1. -/
theorem C6_counterexample :
    (fun i => if i = 0 then (1 : Nat) else 5) 0 ≠ 5 ∧
    (fun i => if i = 0 then (1 : Nat) else 5) 1 = 5 ∧
    invokeCount (workThread ⟨1, 100, 2⟩ 5 (fun i => if i = 0 then (1 : Nat) else 5))
      = 1 ∧
    futureValue ⟨1, 100, 2⟩ 5 (fun i => if i = 0 then (1 : Nat) else 5) = some 1 :=
  ⟨by decide, by decide, by decide, by decide⟩

/-- Claim C8 (confirmed).  On every execution path of the work thread — success
and exhaustion alike — the promise is written exactly once (`setValues` is a
singleton), that unique value is what the future yields, and it is the result
of the last invocation performed: the matching result on success, the last
non-matching result at exhaustion. -/
theorem C8_single_resolution {α : Type} [DecidableEq α]
    (E : Exponential_backoff_retry) (t : α) (f : Nat → α) :
    ∃ r, setValues (workThread E t f) = [r] ∧
      futureValue E t f = some r ∧
      (invokeResults (workThread E t f)).getLast? = some r := by
  obtain ⟨r, hr1, hr2⟩ := setValues_retryLoop t f (E.maxRetries - 1) 0
  exact ⟨r, hr1, by unfold futureValue workThread; rw [hr1]; rfl, hr2⟩

/-- Claim C9 (confirmed).  `operator()` never writes any of the three policy
fields (the thread lambda captures `this` and only reads `_maxRetries` in the
loop guard and `_baseDelay`/`_backoffFactor` in `getDelay`), so the executor
state after a call — and after any further call on the same instance —
is the construction-time policy unchanged. -/
theorem C9_policy_frame {α : Type} [DecidableEq α] (E : Exponential_backoff_retry)
    (t t' : α) (f f' : Nat → α) :
    (executeState E t f).1.maxRetries = E.maxRetries ∧
    (executeState E t f).1.baseDelay = E.baseDelay ∧
    (executeState E t f).1.backoffFactor = E.backoffFactor ∧
    (executeState E t f).1 = E ∧
    (executeState (executeState E t f).1 t' f').1 = E :=
  ⟨rfl, rfl, rfl, rfl, rfl⟩

/-- Claim C10 (confirmed).  For every policy and every total callable the retry
loop terminates (the embedding is a total function); the loop body runs at
least once and at most `max 1 maxRetries` times, and the retry counter driving
the guard starts at 0 and increases by exactly one per non-matching iteration
(the `retryCount`s recorded by the sleeps are `0, 1, 2, …` in order). -/
theorem C10_loop_terminates {α : Type} [DecidableEq α]
    (E : Exponential_backoff_retry) (t : α) (f : Nat → α) :
    1 ≤ invokeCount (workThread E t f) ∧
    invokeCount (workThread E t f) ≤ max 1 E.maxRetries ∧
    ∃ k, sleepCounts (workThread E t f) = List.range' 0 k := by
  refine ⟨invokeCount_retryLoop_pos t f _ 0, ?_,
    sleepCounts_retryLoop t f (E.maxRetries - 1) 0⟩
  have := invokeCount_retryLoop_le t f (E.maxRetries - 1) 0
  unfold workThread
  omega

end Expbr
